import Mathlib

/-!
Shallow embedding of the AL&MO TASKS Express backend (`server.js`).

The server keeps one JSON document `{users, boards, tasks, invites}`;
every request loads it, applies one operation and saves it back.  Each
HTTP handler below is embedded as a pure Lean function from the request
parameters and the loaded document to either an error response (status
and message, as produced by `res.status(...).json({message})`) or the
success payload together with the saved document.  A request-body field
that is absent or empty is modelled as the empty string, matching the
JavaScript falsiness test `!field` on string-typed body fields.  The
`Date.now()` timestamps used to mint identifiers are threaded in as an
explicit `now` parameter, and bcrypt hashing/verification are abstract
function parameters.
-/

set_option maxHeartbeats 1000000

namespace AlmoTasks

/-- A sub-item of a task checklist; the server stores these opaquely inside
a task's `items` array. -/
structure SubItem where
  itemId : String
  content : String
  completed : Bool
  deriving DecidableEq

/-- A value assignable to a task field through the JSON body of
`PATCH /api/tasks/:id`: the string-valued fields or the items array. -/
inductive FieldVal where
  | str (s : String)
  | items (l : List SubItem)
  deriving DecidableEq

/-- A registered user record as stored in `data.users`. -/
structure User where
  id : String
  name : String
  email : String
  passwordHash : String
  deriving DecidableEq

/-- A board record as stored in `data.boards`. -/
structure Board where
  id : String
  name : String
  color : String
  ownerId : String
  members : List String
  deriving DecidableEq

/-- A task record as stored in `data.tasks`.  All fields reachable by the
PATCH merge loop carry `FieldVal`, mirroring the dynamic assignment
`task[key] = updates[key]`; `id` is never on the allow-list and stays a
plain string. -/
structure Task where
  id : String
  title : FieldVal
  description : FieldVal
  dueDate : FieldVal
  boardId : FieldVal
  userId : FieldVal
  items : FieldVal
  deriving DecidableEq

/-- An invitation audit record as stored in `data.invites`. -/
structure Invite where
  id : String
  boardId : String
  email : String
  inviterId : String
  created : String
  deriving DecidableEq

/-- The persisted JSON document `{users, boards, tasks, invites}`. -/
structure Store where
  users : List User
  boards : List Board
  tasks : List Task
  invites : List Invite
  deriving DecidableEq

/-- The default empty document returned by `loadData` when the data file
is absent or unparsable. -/
def emptyStore : Store := { users := [], boards := [], tasks := [], invites := [] }

/-- An error response: HTTP status code plus the JSON `message` payload. -/
structure ApiError where
  status : Nat
  message : String
  deriving DecidableEq

instance {ε α : Type} [DecidableEq ε] [DecidableEq α] : DecidableEq (Except ε α) :=
  fun x y =>
    match x, y with
    | .ok a, .ok b =>
      if h : a = b then isTrue (by rw [h]) else isFalse (by intro hc; cases hc; exact h rfl)
    | .error a, .error b =>
      if h : a = b then isTrue (by rw [h]) else isFalse (by intro hc; cases hc; exact h rfl)
    | .ok _, .error _ => isFalse (by intro hc; cases hc)
    | .error _, .ok _ => isFalse (by intro hc; cases hc)

theorem contains_iff_mem {α : Type} [BEq α] [LawfulBEq α] {l : List α} {a : α} :
    l.contains a = true ↔ a ∈ l := List.elem_iff

theorem contains_eq_false_iff {α : Type} [BEq α] [LawfulBEq α] {l : List α} {a : α} :
    l.contains a = false ↔ a ∉ l := by
  constructor
  · intro h hm
    rw [contains_iff_mem.mpr hm] at h
    exact absurd h (by decide)
  · intro h
    cases hc : l.contains a
    · rfl
    · exact absurd (contains_iff_mem.mp hc) h

/-- Replace the first element satisfying `p` by its image under `f`,
leaving everything else in place.  This models `array.find(...)`
followed by in-place mutation of the found record. -/
def replaceFirst (p : α → Bool) (f : α → α) : List α → List α
  | [] => []
  | x :: xs => if p x then f x :: xs else x :: replaceFirst p f xs

/-- JavaScript strict equality between a dynamically typed task field and
a string, as in `accessibleBoardIds.includes(t.boardId)` and
`t.boardId !== boardId`: true exactly when the field holds that string. -/
def fvEqStr : FieldVal → String → Bool
  | FieldVal.str s, x => s == x
  | FieldVal.items _, _ => false

/-- Colour palette for boards (`boardColors` in `server.js`). -/
def boardColors : List String :=
  ["#4A90E2", "#50E3C2", "#F5A623", "#BD10E0", "#B8E986", "#F8E71C", "#D0021B"]

/-- `POST /api/register`.  `hash` is the result of `bcrypt.hash(password, 10)`. -/
def register (name email password hash : String) (now : Nat) (s : Store) :
    Except ApiError Store :=
  if name == "" || email == "" || password == "" then
    .error ⟨400, "Name, email and password are required."⟩
  else if (s.users.find? (fun u => u.email == email)).isSome then
    .error ⟨400, "Email is already registered."⟩
  else
    .ok { s with users := s.users ++
      [{ id := "user-" ++ toString now, name := name, email := email, passwordHash := hash }] }

/-- `POST /api/login`.  `verify password storedHash` models
`bcrypt.compare(password, user.passwordHash)`.  Success returns
`{userId, name}`. -/
def login (verify : String → String → Bool) (email password : String) (s : Store) :
    Except ApiError (String × String) :=
  if email == "" || password == "" then
    .error ⟨400, "Email and password are required."⟩
  else
    match s.users.find? (fun u => u.email == email) with
    | none => .error ⟨401, "Invalid credentials."⟩
    | some user =>
      if !(verify password user.passwordHash) then
        .error ⟨401, "Invalid credentials."⟩
      else
        .ok (user.id, user.name)

/-- `GET /api/users`: all users without their password hashes. -/
def listUsers (s : Store) : List (String × String × String) :=
  s.users.map (fun u => (u.id, u.name, u.email))

/-- The access check used by `GET /api/boards` and `GET /api/tasks`:
`(b.members && b.members.includes(userId)) || b.ownerId === userId`. -/
def hasAccess (b : Board) (userId : String) : Bool :=
  b.members.contains userId || b.ownerId == userId

/-- `GET /api/boards?userId=...`. -/
def listBoards (userId : String) (s : Store) : Except ApiError (List Board) :=
  if userId == "" then .error ⟨400, "userId is required."⟩
  else .ok (s.boards.filter (fun b => hasAccess b userId))

/-- `POST /api/boards`: creates a board with the creator as owner and sole
member, colour taken from the palette by board count. -/
def createBoard (name userId : String) (now : Nat) (s : Store) :
    Except ApiError (Board × Store) :=
  if name == "" || userId == "" then
    .error ⟨400, "Name and userId are required."⟩
  else
    let color := boardColors.getD (s.boards.length % boardColors.length) ""
    let board : Board :=
      { id := "board-" ++ toString now, name := name, color := color,
        ownerId := userId, members := [userId] }
    .ok (board, { s with boards := s.boards ++ [board] })

/-- `POST /api/invite`: only members may invite; an existing user with the
invited email is added to the members (no duplicate insert); an invite
record is appended regardless.  `created` is `new Date().toISOString()`. -/
def invite (boardId email inviterId : String) (now : Nat) (created : String)
    (s : Store) : Except ApiError Store :=
  if boardId == "" || email == "" || inviterId == "" then
    .error ⟨400, "boardId, email and inviterId are required."⟩
  else
    match s.boards.find? (fun b => b.id == boardId) with
    | none => .error ⟨404, "Board not found."⟩
    | some board =>
      if !(board.members.contains inviterId) then
        .error ⟨403, "You are not a member of this board."⟩
      else
        let boards :=
          match s.users.find? (fun u => u.email == email) with
          | some user =>
            replaceFirst (fun b => b.id == boardId)
              (fun b => if b.members.contains user.id then b
                        else { b with members := b.members ++ [user.id] })
              s.boards
          | none => s.boards
        let inv : Invite :=
          { id := "invite-" ++ toString now, boardId := boardId, email := email,
            inviterId := inviterId, created := created }
        .ok { s with boards := boards, invites := s.invites ++ [inv] }

/-- `GET /api/tasks?userId=...`: tasks whose `boardId` is among the ids of
the boards accessible to the user. -/
def listTasks (userId : String) (s : Store) : Except ApiError (List Task) :=
  if userId == "" then .error ⟨400, "userId is required."⟩
  else
    let accessibleBoardIds := (s.boards.filter (fun b => hasAccess b userId)).map (fun b => b.id)
    .ok (s.tasks.filter (fun t => accessibleBoardIds.any (fun bid => fvEqStr t.boardId bid)))

/-- `POST /api/tasks`: the creator must be a member of the target board. -/
def createTask (title description dueDate boardId assignedUserId creatorId : String)
    (now : Nat) (s : Store) : Except ApiError (Task × Store) :=
  if title == "" || boardId == "" || creatorId == "" then
    .error ⟨400, "title, boardId and creatorId are required."⟩
  else
    match s.boards.find? (fun b => b.id == boardId) with
    | none => .error ⟨404, "Board not found."⟩
    | some board =>
      if !(board.members.contains creatorId) then
        .error ⟨403, "You are not a member of this board."⟩
      else
        let task : Task :=
          { id := "task-" ++ toString now, title := .str title,
            description := .str description, dueDate := .str dueDate,
            boardId := .str boardId, userId := .str assignedUserId,
            items := .items [] }
        .ok (task, { s with tasks := s.tasks ++ [task] })

/-- The allow-list of `PATCH /api/tasks/:id`. -/
def allowed : List String :=
  ["title", "description", "dueDate", "boardId", "userId", "items"]

/-- The dynamic assignment `task[key] = v` for an allow-listed key. -/
def setField (t : Task) (key : String) (v : FieldVal) : Task :=
  if key == "title" then { t with title := v }
  else if key == "description" then { t with description := v }
  else if key == "dueDate" then { t with dueDate := v }
  else if key == "boardId" then { t with boardId := v }
  else if key == "userId" then { t with userId := v }
  else if key == "items" then { t with items := v }
  else t

/-- The merge loop `allowed.forEach(key => { if (key in updates) task[key] = updates[key]; })`.
The request body is an association list of JSON keys to field values. -/
def applyUpdates (t : Task) (updates : List (String × FieldVal)) : Task :=
  allowed.foldl
    (fun acc key =>
      match updates.lookup key with
      | some v => setField acc key v
      | none => acc)
    t

/-- `PATCH /api/tasks/:id`: field-level merge on the first task with the
given id; no caller identity is taken and no access check is made. -/
def updateTask (taskId : String) (updates : List (String × FieldVal)) (s : Store) :
    Except ApiError (Task × Store) :=
  match s.tasks.find? (fun t => t.id == taskId) with
  | none => .error ⟨404, "Task not found."⟩
  | some t =>
    .ok (applyUpdates t updates,
      { s with tasks := replaceFirst (fun u => u.id == taskId) (fun u => applyUpdates u updates) s.tasks })

/-- `DELETE /api/tasks/:id`: unconditional, idempotent removal. -/
def deleteTask (taskId : String) (s : Store) : Store :=
  { s with tasks := s.tasks.filter (fun t => t.id != taskId) }

/-- `DELETE /api/boards/:id`: only the owner may delete; cascades to the
tasks of the board. -/
def deleteBoard (boardId userId : String) (s : Store) : Except ApiError Store :=
  match s.boards.find? (fun b => b.id == boardId) with
  | none => .error ⟨404, "Board not found."⟩
  | some board =>
    if board.ownerId != userId then
      .error ⟨403, "Only the owner can delete this board."⟩
    else
      .ok { s with
        boards := s.boards.filter (fun b => b.id != boardId),
        tasks := s.tasks.filter (fun t => !(fvEqStr t.boardId boardId)) }

/-- One API request, with all nondeterministic inputs (body fields,
timestamps, bcrypt results) reified as parameters. -/
inductive Op where
  | register (name email password hash : String) (now : Nat)
  | login (verify : String → String → Bool) (email password : String)
  | listUsers
  | listBoards (userId : String)
  | createBoard (name userId : String) (now : Nat)
  | deleteBoard (boardId userId : String)
  | invite (boardId email inviterId : String) (now : Nat) (created : String)
  | listTasks (userId : String)
  | createTask (title description dueDate boardId assignedUserId creatorId : String) (now : Nat)
  | updateTask (taskId : String) (updates : List (String × FieldVal))
  | deleteTask (taskId : String)

/-- The effect of one request on the persisted document: on an error
response no `saveData` happens, so the document is unchanged; read-only
handlers never save. -/
def stepOp : Op → Store → Store
  | .register name email password hash now, s =>
    match register name email password hash now s with
    | .ok s2 => s2
    | .error _ => s
  | .login _ _ _, s => s
  | .listUsers, s => s
  | .listBoards _, s => s
  | .createBoard name userId now, s =>
    match createBoard name userId now s with
    | .ok (_, s2) => s2
    | .error _ => s
  | .deleteBoard boardId userId, s =>
    match deleteBoard boardId userId s with
    | .ok s2 => s2
    | .error _ => s
  | .invite boardId email inviterId now created, s =>
    match invite boardId email inviterId now created s with
    | .ok s2 => s2
    | .error _ => s
  | .listTasks _, s => s
  | .createTask title description dueDate boardId assignedUserId creatorId now, s =>
    match createTask title description dueDate boardId assignedUserId creatorId now s with
    | .ok (_, s2) => s2
    | .error _ => s
  | .updateTask taskId updates, s =>
    match updateTask taskId updates s with
    | .ok (_, s2) => s2
    | .error _ => s
  | .deleteTask taskId, s => deleteTask taskId s

/-- Stores reachable from the empty document through API requests. -/
inductive Reachable : Store → Prop where
  | init : Reachable emptyStore
  | step {s : Store} (h : Reachable s) (o : Op) : Reachable (stepOp o s)

/-- The documented data invariant: every board's members contain its owner. -/
def membersInv (s : Store) : Prop :=
  ∀ b ∈ s.boards, b.ownerId ∈ b.members

/-! Helper lemmas about `replaceFirst`. -/

theorem length_replaceFirst (p : α → Bool) (f : α → α) (l : List α) :
    (replaceFirst p f l).length = l.length := by
  induction l with
  | nil => rfl
  | cons x xs ih =>
    rw [replaceFirst]
    split <;> simp [ih]

theorem mem_replaceFirst {p : α → Bool} {f : α → α} {l : List α} {y : α}
    (h : y ∈ replaceFirst p f l) : y ∈ l ∨ ∃ x ∈ l, y = f x := by
  induction l with
  | nil => simp [replaceFirst] at h
  | cons x xs ih =>
    rw [replaceFirst] at h
    split at h
    · rcases List.mem_cons.mp h with h1 | h1
      · exact Or.inr ⟨x, List.mem_cons_self x xs, h1⟩
      · exact Or.inl (List.mem_cons_of_mem _ h1)
    · rcases List.mem_cons.mp h with h1 | h1
      · exact Or.inl (h1 ▸ List.mem_cons_self x xs)
      · rcases ih h1 with h2 | ⟨z, hz, hy⟩
        · exact Or.inl (List.mem_cons_of_mem _ h2)
        · exact Or.inr ⟨z, List.mem_cons_of_mem _ hz, hy⟩

theorem replaceFirst_of_forall_not {p : α → Bool} (f : α → α) {l : List α}
    (h : ∀ x ∈ l, ¬ p x) : replaceFirst p f l = l := by
  induction l with
  | nil => rfl
  | cons x xs ih =>
    rw [replaceFirst, if_neg (h x (List.mem_cons_self x xs)),
      ih (fun y hy => h y (List.mem_cons_of_mem _ hy))]

theorem find?_replaceFirst {p : α → Bool} {f : α → α} (l : List α)
    (hp : ∀ x, p x = true → p (f x) = true) :
    (replaceFirst p f l).find? p = (l.find? p).map f := by
  induction l with
  | nil => rfl
  | cons x xs ih =>
    rw [replaceFirst]
    by_cases hx : p x = true
    · rw [if_pos hx, List.find?_cons_of_pos _ (hp x hx), List.find?_cons_of_pos _ hx]
      rfl
    · rw [if_neg hx, List.find?_cons_of_neg _ hx, List.find?_cons_of_neg _ hx, ih]

theorem replaceFirst_eq_self {p : α → Bool} {f : α → α} {l : List α}
    (h : ∀ x, l.find? p = some x → f x = x) : replaceFirst p f l = l := by
  induction l with
  | nil => rfl
  | cons x xs ih =>
    rw [replaceFirst]
    by_cases hx : p x = true
    · rw [if_pos hx, h x (List.find?_cons_of_pos _ hx)]
    · rw [if_neg hx, ih (fun y hy => h y (by rw [List.find?_cons_of_neg _ hx]; exact hy))]

/-! Helper lemmas about the PATCH merge. -/

theorem setField_eq_title (t : Task) (v : FieldVal) :
    setField t "title" v = { t with title := v } := rfl

theorem setField_eq_description (t : Task) (v : FieldVal) :
    setField t "description" v = { t with description := v } := rfl

theorem setField_eq_dueDate (t : Task) (v : FieldVal) :
    setField t "dueDate" v = { t with dueDate := v } := rfl

theorem setField_eq_boardId (t : Task) (v : FieldVal) :
    setField t "boardId" v = { t with boardId := v } := rfl

theorem setField_eq_userId (t : Task) (v : FieldVal) :
    setField t "userId" v = { t with userId := v } := rfl

theorem setField_eq_items (t : Task) (v : FieldVal) :
    setField t "items" v = { t with items := v } := rfl

/-- Full characterisation of the allow-listed merge: each of the six
allow-listed fields is overwritten exactly when its key is present in the
body, `id` is never touched, and no other key of the body is consulted. -/
theorem applyUpdates_spec (t : Task) (u : List (String × FieldVal)) :
    applyUpdates t u =
      { id := t.id,
        title := (u.lookup "title").getD t.title,
        description := (u.lookup "description").getD t.description,
        dueDate := (u.lookup "dueDate").getD t.dueDate,
        boardId := (u.lookup "boardId").getD t.boardId,
        userId := (u.lookup "userId").getD t.userId,
        items := (u.lookup "items").getD t.items } := by
  simp only [applyUpdates, allowed, List.foldl_cons, List.foldl_nil]
  cases h1 : u.lookup "title" <;> cases h2 : u.lookup "description" <;>
    cases h3 : u.lookup "dueDate" <;> cases h4 : u.lookup "boardId" <;>
    cases h5 : u.lookup "userId" <;> cases h6 : u.lookup "items" <;>
      simp only [setField_eq_title, setField_eq_description, setField_eq_dueDate,
        setField_eq_boardId, setField_eq_userId, setField_eq_items, Option.getD]

theorem fvEqStr_iff (v : FieldVal) (x : String) :
    fvEqStr v x = true ↔ v = FieldVal.str x := by
  cases v <;> simp [fvEqStr]

/-! Success-shape lemmas for the mutating handlers. -/

theorem createTask_ok {title descr dd bid au cid : String} {now : Nat} {s : Store}
    {t2 : Task} {s2 : Store}
    (h : createTask title descr dd bid au cid now s = .ok (t2, s2)) :
    t2 = { id := "task-" ++ toString now, title := .str title, description := .str descr,
           dueDate := .str dd, boardId := .str bid, userId := .str au, items := .items [] } ∧
    s2 = { s with tasks := s.tasks ++ [t2] } := by
  simp only [createTask] at h
  split at h
  · exact absurd h (by simp)
  · split at h
    · exact absurd h (by simp)
    · split at h
      · exact absurd h (by simp)
      · simp only [Except.ok.injEq, Prod.mk.injEq] at h
        obtain ⟨ht, hs⟩ := h
        exact ⟨ht.symm, by rw [← hs, ht]⟩

theorem register_boards {name email password hash : String} {now : Nat} {s s2 : Store}
    (h : register name email password hash now s = .ok s2) : s2.boards = s.boards := by
  rw [register] at h
  split at h
  · exact absurd h (by simp)
  · split at h
    · exact absurd h (by simp)
    · simp only [Except.ok.injEq] at h
      rw [← h]

theorem createBoard_ok {name userId : String} {now : Nat} {s : Store} {b : Board} {s2 : Store}
    (h : createBoard name userId now s = .ok (b, s2)) :
    b = { id := "board-" ++ toString now, name := name,
          color := boardColors.getD (s.boards.length % boardColors.length) "",
          ownerId := userId, members := [userId] } ∧
    s2 = { s with boards := s.boards ++ [b] } := by
  simp only [createBoard] at h
  split at h
  · exact absurd h (by simp)
  · simp only [Except.ok.injEq, Prod.mk.injEq] at h
    obtain ⟨hb, hs⟩ := h
    exact ⟨hb.symm, by rw [← hs, hb]⟩

theorem invite_ok {boardId email inviterId : String} {now : Nat} {created : String}
    {s s2 : Store} (h : invite boardId email inviterId now created s = .ok s2) :
    s2.users = s.users ∧ s2.tasks = s.tasks ∧
    s2.invites = s.invites ++
      [{ id := "invite-" ++ toString now, boardId := boardId, email := email,
         inviterId := inviterId, created := created }] ∧
    ((s.users.find? (fun u => u.email == email) = none ∧ s2.boards = s.boards) ∨
      ∃ u, s.users.find? (fun v => v.email == email) = some u ∧
        s2.boards = replaceFirst (fun b => b.id == boardId)
          (fun b => if b.members.contains u.id then b
                    else { b with members := b.members ++ [u.id] }) s.boards) := by
  simp only [invite] at h
  split at h
  · exact absurd h (by simp)
  · split at h
    · exact absurd h (by simp)
    · split at h
      · exact absurd h (by simp)
      · simp only [Except.ok.injEq] at h
        rw [← h]
        refine ⟨rfl, rfl, rfl, ?_⟩
        cases hu : s.users.find? (fun u => u.email == email) with
        | none => exact Or.inl ⟨rfl, by simp only [hu]⟩
        | some u => exact Or.inr ⟨u, rfl, by simp only [hu]⟩

theorem updateTask_ok {taskId : String} {updates : List (String × FieldVal)} {s : Store}
    {t2 : Task} {s2 : Store}
    (h : updateTask taskId updates s = .ok (t2, s2)) :
    s2.users = s.users ∧ s2.boards = s.boards ∧ s2.invites = s.invites ∧
    s2.tasks = replaceFirst (fun u => u.id == taskId) (fun u => applyUpdates u updates) s.tasks ∧
    ∃ t0, s.tasks.find? (fun t => t.id == taskId) = some t0 ∧ t2 = applyUpdates t0 updates := by
  rw [updateTask] at h
  split at h
  · exact absurd h (by simp)
  · rename_i t0 hfind
    simp only [Except.ok.injEq, Prod.mk.injEq] at h
    obtain ⟨ht, hs⟩ := h
    rw [← hs]
    exact ⟨rfl, rfl, rfl, rfl, t0, hfind, ht.symm⟩

theorem deleteBoard_ok {boardId userId : String} {s s2 : Store}
    (h : deleteBoard boardId userId s = .ok s2) :
    s2.users = s.users ∧ s2.invites = s.invites ∧
    s2.boards = s.boards.filter (fun b => b.id != boardId) ∧
    s2.tasks = s.tasks.filter (fun t => !(fvEqStr t.boardId boardId)) := by
  rw [deleteBoard] at h
  split at h
  · exact absurd h (by simp)
  · split at h
    · exact absurd h (by simp)
    · simp only [Except.ok.injEq] at h
      rw [← h]
      exact ⟨rfl, rfl, rfl, rfl⟩

/-- Membership in a successful `listTasks` response. -/
theorem mem_listTasks {s : Store} {u : String} {l : List Task}
    (hu : u ≠ "") (hl : listTasks u s = .ok l) (t : Task) :
    t ∈ l ↔ t ∈ s.tasks ∧
      ∃ b ∈ s.boards, t.boardId = FieldVal.str b.id ∧ hasAccess b u = true := by
  rw [listTasks, if_neg (by simpa using hu)] at hl
  simp only [Except.ok.injEq] at hl
  subst hl
  simp only [List.mem_filter, List.any_eq_true, List.mem_map, List.mem_filter,
    fvEqStr_iff]
  constructor
  · rintro ⟨ht, bid, ⟨b, ⟨hb, hacc⟩, rfl⟩, hbid⟩
    exact ⟨ht, b, hb, hbid, hacc⟩
  · rintro ⟨ht, b, hb, hbid, hacc⟩
    exact ⟨ht, b.id, ⟨b, ⟨hb, hacc⟩, rfl⟩, hbid⟩

/-! Concrete fixtures used by witnesses. -/

def bW1 : Board :=
  { id := "board-1", name := "A", color := "#4A90E2", ownerId := "u", members := ["u"] }

def sW1 : Store := { users := [], boards := [bW1], tasks := [], invites := [] }

def sW7 : Store := { users := [], boards := List.replicate 7 bW1, tasks := [], invites := [] }

def bW8 : Board :=
  { id := "board-2", name := "B", color := "#4A90E2", ownerId := "u", members := ["u"] }

def sW8 : Store :=
  { users := [], boards := List.replicate 7 bW1 ++ [bW8], tasks := [], invites := [] }

def uWa : User := { id := "user-1", name := "Alice", email := "alice@x.com", passwordHash := "h1" }

def uWb : User := { id := "user-2", name := "Bob", email := "bob@x.com", passwordHash := "h2" }

def bWs : Board :=
  { id := "board-1", name := "Sprint", color := "#4A90E2", ownerId := "user-1",
    members := ["user-1"] }

def tWf : Task :=
  { id := "task-1", title := .str "Fix bug", description := .str "", dueDate := .str "",
    boardId := .str "board-1", userId := .str "", items := .items [] }

def csW : Store := { users := [uWa, uWb], boards := [bWs], tasks := [tWf], invites := [] }

/-- C1: a successful `listTasks u` contains exactly the tasks of the store
whose `boardId` is the id of some board having `u` among its members or as
its owner; and a task successfully created on a board is saved with that
board id, so it is visible afterwards exactly to the users with access to
a board carrying that id — every member, not only the assignee. -/
theorem listTasks_visibility :
    (∀ s u l, u ≠ "" → listTasks u s = Except.ok l →
      ∀ t, t ∈ l ↔ t ∈ s.tasks ∧
        ∃ b ∈ s.boards, t.boardId = FieldVal.str b.id ∧ hasAccess b u = true) ∧
    (∀ s title descr dd bid au cid now t2 s2 v l2,
      createTask title descr dd bid au cid now s = Except.ok (t2, s2) → v ≠ "" →
      listTasks v s2 = Except.ok l2 →
      (t2 ∈ l2 ↔ ∃ b ∈ s2.boards, t2.boardId = FieldVal.str b.id ∧ hasAccess b v = true)) := by
  constructor
  · intro s u l hu hl t
    exact mem_listTasks hu hl t
  · intro s title descr dd bid au cid now t2 s2 v l2 hc hv hl
    obtain ⟨ht, hs⟩ := createTask_ok hc
    have hmem : t2 ∈ s2.tasks := by rw [hs]; simp
    rw [mem_listTasks hv hl t2]
    simp [hmem]

/-- C1 witness at a concrete store. -/
theorem listTasks_visibility_witness :
    tWf ∈ [tWf] ↔ tWf ∈ csW.tasks ∧
      ∃ b ∈ csW.boards, tWf.boardId = FieldVal.str b.id ∧ hasAccess b "user-1" = true :=
  listTasks_visibility.1 csW "user-1" [tWf] (by decide) (by rfl) tWf

/-- C9: `createBoard` assigns the colour `boardColors[n mod 7]` where `n`
is the number of boards already in the store; each successful creation
grows the board list by one, so the 8th of 8 consecutive creations (7 more
boards than at the 1st) repeats the 1st colour; the first board of the
empty store gets `#4A90E2`. -/
theorem createBoard_color_cycles
    (s s7 : Store) (n1 u1 n8 u8 : String) (t1 t8 : Nat)
    (b1 b8 : Board) (s1 s8 : Store)
    (h1 : createBoard n1 u1 t1 s = .ok (b1, s1))
    (h7 : s7.boards.length = s.boards.length + 7)
    (h8 : createBoard n8 u8 t8 s7 = .ok (b8, s8)) :
    b1.color = boardColors.getD (s.boards.length % boardColors.length) "" ∧
    s1.boards.length = s.boards.length + 1 ∧
    b8.color = b1.color ∧
    (s = emptyStore → b1.color = "#4A90E2") := by
  rw [createBoard] at h1 h8
  split at h1
  · exact absurd h1 (by simp)
  · split at h8
    · exact absurd h8 (by simp)
    · simp only [Except.ok.injEq, Prod.mk.injEq] at h1 h8
      obtain ⟨hb1, hs1⟩ := h1
      obtain ⟨hb8, hs8⟩ := h8
      refine ⟨by rw [← hb1], by rw [← hs1]; simp, ?_, ?_⟩
      · rw [← hb1, ← hb8]
        simp only [h7]
        have hlen : boardColors.length = 7 := rfl
        rw [hlen, Nat.add_mod_right]
      · intro hs
        rw [← hb1, hs]
        rfl

/-- C9 witness at concrete inputs. -/
theorem createBoard_color_cycles_witness :
    bW1.color = boardColors.getD (emptyStore.boards.length % boardColors.length) "" ∧
    sW1.boards.length = emptyStore.boards.length + 1 ∧
    bW8.color = bW1.color ∧
    (emptyStore = emptyStore → bW1.color = "#4A90E2") :=
  createBoard_color_cycles emptyStore sW7 "A" "u" "B" "u" 1 2 bW1 bW8 sW1 sW8
    (by rfl) (by rfl) (by rfl)

/-- Every single API request preserves the owner-is-member invariant. -/
theorem stepOp_membersInv (s : Store) (o : Op) (hinv : membersInv s) :
    membersInv (stepOp o s) := by
  cases o with
  | register name email password hash now =>
    simp only [stepOp]
    cases hreg : register name email password hash now s with
    | ok s2 =>
      show membersInv s2
      exact fun b hb => hinv b ((register_boards hreg) ▸ hb)
    | error e => exact hinv
  | login verify email password => exact hinv
  | listUsers => exact hinv
  | listBoards userId => exact hinv
  | createBoard name userId now =>
    simp only [stepOp]
    cases hcb : createBoard name userId now s with
    | ok p =>
      obtain ⟨bNew, s2⟩ := p
      show membersInv s2
      obtain ⟨hbNew, hs2⟩ := createBoard_ok hcb
      intro b hb
      rw [hs2] at hb
      simp only [List.mem_append, List.mem_singleton] at hb
      rcases hb with hb | rfl
      · exact hinv b hb
      · rw [hbNew]; simp
    | error e => exact hinv
  | deleteBoard boardId userId =>
    simp only [stepOp]
    cases hd : deleteBoard boardId userId s with
    | ok s2 =>
      show membersInv s2
      obtain ⟨-, -, hbs, -⟩ := deleteBoard_ok hd
      intro b hb
      rw [hbs] at hb
      exact hinv b (List.mem_filter.mp hb).1
    | error e => exact hinv
  | invite boardId email inviterId now created =>
    simp only [stepOp]
    cases hi : invite boardId email inviterId now created s with
    | ok s2 =>
      show membersInv s2
      obtain ⟨-, -, -, hcases⟩ := invite_ok hi
      intro b hb
      rcases hcases with ⟨-, hbs⟩ | ⟨u, -, hbs⟩
      · rw [hbs] at hb; exact hinv b hb
      · rw [hbs] at hb
        rcases mem_replaceFirst hb with h1 | ⟨x, hx, rfl⟩
        · exact hinv b h1
        · by_cases hc : x.members.contains u.id = true
          · simp only [if_pos hc]
            exact hinv x hx
          · simp only [if_neg hc]
            exact List.mem_append_left _ (hinv x hx)
    | error e => exact hinv
  | listTasks userId => exact hinv
  | createTask title descr dd bid au cid now =>
    simp only [stepOp]
    cases hc : createTask title descr dd bid au cid now s with
    | ok p =>
      obtain ⟨t2, s2⟩ := p
      show membersInv s2
      obtain ⟨-, hs2⟩ := createTask_ok hc
      intro b hb
      rw [hs2] at hb
      exact hinv b hb
    | error e => exact hinv
  | updateTask taskId updates =>
    simp only [stepOp]
    cases hu2 : updateTask taskId updates s with
    | ok p =>
      obtain ⟨t2, s2⟩ := p
      show membersInv s2
      obtain ⟨-, hbs, -⟩ := updateTask_ok hu2
      intro b hb
      rw [hbs] at hb
      exact hinv b hb
    | error e => exact hinv
  | deleteTask taskId => exact fun b hb => hinv b hb

/-- C2: every store reachable from the empty document through the API
operations has every board's members containing its owner, and every
single operation preserves this invariant. -/
theorem reachable_membersInv :
    (∀ s, Reachable s → membersInv s) ∧
    (∀ s (o : Op), membersInv s → membersInv (stepOp o s)) := by
  constructor
  · intro s h
    induction h with
    | init => intro b hb; exact absurd hb (by simp [emptyStore])
    | step h o ih => exact stepOp_membersInv _ o ih
  · intro s o h
    exact stepOp_membersInv s o h

/-- C2 witness: the invariant at a concrete reachable store, one
`createBoard` away from the empty document. -/
theorem reachable_membersInv_witness :
    membersInv (stepOp (Op.createBoard "Sprint" "user-1" 1) emptyStore) :=
  reachable_membersInv.1 _ (Reachable.step Reachable.init (Op.createBoard "Sprint" "user-1" 1))

/-- C3 counterexample: on a store with an existing board not containing the
inviter, calling `invite` with an *empty* invited email fails with the
validation 400, not with 403 as the claim states for every such call. -/
theorem invite_forbidden_cex :
    csW.boards.find? (fun b => b.id == "board-1") = some bWs ∧
    ("user-2" ∈ bWs.members → False) ∧
    invite "board-1" "" "user-2" 0 "t0" csW ≠
      Except.error ⟨403, "You are not a member of this board."⟩ ∧
    invite "board-1" "" "user-2" 0 "t0" csW =
      Except.error ⟨400, "boardId, email and inviterId are required."⟩ := by
  decide

/-- C3 (amended): provided `boardId`, `email` and `inviterId` are all
non-empty (an empty one fails with the validation 400 first), `invite` on an
existing board whose members do not contain the inviter always fails with
403 and leaves the persisted document unchanged, and with no board of that
id it fails with 404, also without mutation. -/
theorem invite_forbidden_no_mutation
    (s : Store) (boardId email inviterId : String) (now : Nat) (created : String)
    (hb : boardId ≠ "") (he : email ≠ "") (hi : inviterId ≠ "") :
    (∀ board, s.boards.find? (fun b => b.id == boardId) = some board →
      board.members.contains inviterId = false →
      invite boardId email inviterId now created s =
        Except.error ⟨403, "You are not a member of this board."⟩ ∧
      stepOp (Op.invite boardId email inviterId now created) s = s) ∧
    (s.boards.find? (fun b => b.id == boardId) = none →
      invite boardId email inviterId now created s =
        Except.error ⟨404, "Board not found."⟩ ∧
      stepOp (Op.invite boardId email inviterId now created) s = s) := by
  have hval : (boardId == "" || email == "" || inviterId == "") = false := by
    simp [hb, he, hi]
  constructor
  · intro board hfind hmem
    have h403 : invite boardId email inviterId now created s =
        Except.error ⟨403, "You are not a member of this board."⟩ := by
      simp [invite, hval, hfind]
      exact contains_eq_false_iff.mp hmem
    exact ⟨h403, by simp only [stepOp, h403]⟩
  · intro hfind
    have h404 : invite boardId email inviterId now created s =
        Except.error ⟨404, "Board not found."⟩ := by
      simp [invite, hval, hfind]
    exact ⟨h404, by simp only [stepOp, h404]⟩

/-- C3 witness at a concrete store: non-member inviter, non-empty fields. -/
theorem invite_forbidden_no_mutation_witness :
    invite "board-1" "bob@x.com" "user-2" 0 "t0" csW =
      Except.error ⟨403, "You are not a member of this board."⟩ ∧
    stepOp (Op.invite "board-1" "bob@x.com" "user-2" 0 "t0") csW = csW :=
  (invite_forbidden_no_mutation csW "board-1" "bob@x.com" "user-2" 0 "t0"
    (by decide) (by decide) (by decide)).1 bWs (by rfl) (by rfl)

/-- C4: `createTask` fails 400 when `title`, `boardId` or `creatorId` is
missing; past validation it fails 404 when no board carries the id; for a
found board satisfying the owner-is-member invariant (true in every
reachable store, claim C2) it fails 403 exactly when the §4.3 access
predicate `hasAccess` rejects the creator, and succeeds otherwise. -/
theorem createTask_errors
    (s : Store) (title descr dd bid au cid : String) (now : Nat) :
    ((title = "" ∨ bid = "" ∨ cid = "") →
      createTask title descr dd bid au cid now s =
        Except.error ⟨400, "title, boardId and creatorId are required."⟩) ∧
    (title ≠ "" → bid ≠ "" → cid ≠ "" →
      (s.boards.find? (fun b => b.id == bid) = none →
        createTask title descr dd bid au cid now s =
          Except.error ⟨404, "Board not found."⟩) ∧
      (∀ board, s.boards.find? (fun b => b.id == bid) = some board →
        board.ownerId ∈ board.members →
        ((hasAccess board cid = false →
          createTask title descr dd bid au cid now s =
            Except.error ⟨403, "You are not a member of this board."⟩) ∧
         (hasAccess board cid = true →
          ∃ t2 s2, createTask title descr dd bid au cid now s = Except.ok (t2, s2))))) := by
  constructor
  · rintro (h | h | h) <;> simp [createTask, h]
  · intro ht hb hc
    have hval : (title == "" || bid == "" || cid == "") = false := by
      simp [ht, hb, hc]
    constructor
    · intro hfind
      simp [createTask, hval, hfind]
    · intro board hfind hOwner
      have hca : hasAccess board cid = board.members.contains cid := by
        unfold hasAccess
        cases hcont : board.members.contains cid with
        | true => simp
        | false =>
          simp only [Bool.false_or]
          apply beq_eq_false_iff_ne.mpr
          intro hEq
          rw [hEq] at hOwner
          exact absurd hOwner (contains_eq_false_iff.mp hcont)
      constructor
      · intro hacc
        rw [hca] at hacc
        simp [createTask, hval, hfind]
        exact contains_eq_false_iff.mp hacc
      · intro hacc
        rw [hca] at hacc
        refine ⟨{ id := "task-" ++ toString now, title := .str title,
                  description := .str descr, dueDate := .str dd, boardId := .str bid,
                  userId := .str au, items := .items [] },
                { s with tasks := s.tasks ++
                  [{ id := "task-" ++ toString now, title := .str title,
                     description := .str descr, dueDate := .str dd, boardId := .str bid,
                     userId := .str au, items := .items [] }] }, ?_⟩
        simp [createTask, hval, hfind, hacc]
        exact contains_iff_mem.mp hacc

/-- C4 witness: a non-member creator is rejected with 403 at a concrete
store satisfying the invariant. -/
theorem createTask_errors_witness :
    createTask "T" "" "" "board-1" "" "user-2" 5 csW =
      Except.error ⟨403, "You are not a member of this board."⟩ :=
  (((createTask_errors csW "T" "" "" "board-1" "" "user-2" 5).2
    (by decide) (by decide) (by decide)).2 bWs (by rfl) (by decide)).1 (by decide)

/-- C5: `deleteBoard` fails 404 when no board carries the id, fails 403 for
every caller other than the owner (membership does not suffice), and on
success removes the board and exactly the tasks whose `boardId` equals the
deleted id: those tasks are gone from every subsequent `listTasks`, while
tasks of other boards survive untouched. -/
theorem deleteBoard_spec (s : Store) (boardId userId : String) :
    (s.boards.find? (fun b => b.id == boardId) = none →
      deleteBoard boardId userId s = Except.error ⟨404, "Board not found."⟩) ∧
    (∀ board, s.boards.find? (fun b => b.id == boardId) = some board →
      (board.ownerId ≠ userId →
        deleteBoard boardId userId s =
          Except.error ⟨403, "Only the owner can delete this board."⟩) ∧
      (board.ownerId = userId →
        ∃ s2, deleteBoard boardId userId s = Except.ok s2 ∧
          s2.boards = s.boards.filter (fun b => b.id != boardId) ∧
          s2.tasks = s.tasks.filter (fun t => !(fvEqStr t.boardId boardId)) ∧
          (∀ t ∈ s.tasks, fvEqStr t.boardId boardId = false → t ∈ s2.tasks) ∧
          (∀ u l, listTasks u s2 = Except.ok l →
            ∀ t ∈ l, fvEqStr t.boardId boardId = false))) := by
  constructor
  · intro hfind
    simp [deleteBoard, hfind]
  · intro board hfind
    constructor
    · intro hne
      simp [deleteBoard, hfind, hne]
    · intro hEq
      refine ⟨{ s with
                  boards := s.boards.filter (fun b => b.id != boardId),
                  tasks := s.tasks.filter (fun t => !(fvEqStr t.boardId boardId)) },
              by simp [deleteBoard, hfind, hEq], rfl, rfl, ?_, ?_⟩
      · intro t ht hbid
        exact List.mem_filter.mpr ⟨ht, by simp [hbid]⟩
      · intro u l hl t htl
        by_cases hu : u = ""
        · rw [hu] at hl
          exact absurd hl (by simp [listTasks])
        · have := ((mem_listTasks hu hl t).mp htl).1
          have hmem := List.mem_filter.mp this
          have h2 := hmem.2
          simp only [Bool.not_eq_true'] at h2
          exact h2

/-- C5 witness: the owner deletes the only board of a concrete store; its
task disappears and the non-owner 403 path is exercised separately via
the conjunction. -/
theorem deleteBoard_spec_witness :
    deleteBoard "board-1" "user-2" csW =
      Except.error ⟨403, "Only the owner can delete this board."⟩ :=
  ((deleteBoard_spec csW "board-1" "user-2").2 bWs (by rfl)).1 (by decide)

theorem lookup_cons_ne {k a : String} (h : (a == k) = false) (v : FieldVal)
    (u : List (String × FieldVal)) :
    List.lookup a ((k, v) :: u) = List.lookup a u := by
  simp [List.lookup_cons, h]

/-- C6: `updateTask` (which consults no caller identity at all) fails 404
exactly when no task has the id; otherwise it succeeds and merges only the
allow-listed keys: each of the six fields takes the body value exactly when
its key is present — `items` wholesale — `id` is untouched, and a binding
for any key outside the allow-list never changes the merge result, while
the recognized keys of the same body still apply. -/
theorem updateTask_merge (s : Store) (taskId : String)
    (updates : List (String × FieldVal)) :
    (s.tasks.find? (fun t => t.id == taskId) = none →
      updateTask taskId updates s = Except.error ⟨404, "Task not found."⟩) ∧
    (∀ t0, s.tasks.find? (fun t => t.id == taskId) = some t0 →
      updateTask taskId updates s = Except.ok (applyUpdates t0 updates,
        { s with tasks := replaceFirst (fun x => x.id == taskId) (fun x => applyUpdates x updates) s.tasks })) ∧
    (∀ t0, applyUpdates t0 updates =
      { id := t0.id,
        title := (updates.lookup "title").getD t0.title,
        description := (updates.lookup "description").getD t0.description,
        dueDate := (updates.lookup "dueDate").getD t0.dueDate,
        boardId := (updates.lookup "boardId").getD t0.boardId,
        userId := (updates.lookup "userId").getD t0.userId,
        items := (updates.lookup "items").getD t0.items }) ∧
    (∀ k v t0, k ∉ allowed →
      applyUpdates t0 ((k, v) :: updates) = applyUpdates t0 updates) := by
  refine ⟨?_, ?_, ?_, ?_⟩
  · intro hfind
    simp [updateTask, hfind]
  · intro t0 hfind
    simp [updateTask, hfind]
  · intro t0
    exact applyUpdates_spec t0 updates
  · intro k v t0 hk
    have h1 : ("title" == k) = false :=
      beq_eq_false_iff_ne.mpr (fun hh => hk (by rw [← hh]; simp [allowed]))
    have h2 : ("description" == k) = false :=
      beq_eq_false_iff_ne.mpr (fun hh => hk (by rw [← hh]; simp [allowed]))
    have h3 : ("dueDate" == k) = false :=
      beq_eq_false_iff_ne.mpr (fun hh => hk (by rw [← hh]; simp [allowed]))
    have h4 : ("boardId" == k) = false :=
      beq_eq_false_iff_ne.mpr (fun hh => hk (by rw [← hh]; simp [allowed]))
    have h5 : ("userId" == k) = false :=
      beq_eq_false_iff_ne.mpr (fun hh => hk (by rw [← hh]; simp [allowed]))
    have h6 : ("items" == k) = false :=
      beq_eq_false_iff_ne.mpr (fun hh => hk (by rw [← hh]; simp [allowed]))
    rw [applyUpdates_spec, applyUpdates_spec]
    rw [lookup_cons_ne h1, lookup_cons_ne h2, lookup_cons_ne h3, lookup_cons_ne h4,
      lookup_cons_ne h5, lookup_cons_ne h6]

/-- C6 witness: unknown-id 404 and an unrecognized key being ignored, at
concrete inputs. -/
theorem updateTask_merge_witness :
    updateTask "task-9" [("title", FieldVal.str "New")] csW =
      Except.error ⟨404, "Task not found."⟩ ∧
    applyUpdates tWf (("junk", FieldVal.str "x") :: [("title", FieldVal.str "New")]) =
      applyUpdates tWf [("title", FieldVal.str "New")] :=
  ⟨(updateTask_merge csW "task-9" [("title", FieldVal.str "New")]).1 (by rfl),
   (updateTask_merge csW "task-9" [("title", FieldVal.str "New")]).2.2.2
     "junk" (FieldVal.str "x") tWf (by decide)⟩

/-- The member-adding update applied by `invite` never changes a board's id. -/
theorem inviteAdd_preserves_id (boardId uid : String) :
    ∀ x : Board, (x.id == boardId) = true →
      (((if x.members.contains uid then x
         else { x with members := x.members ++ [uid] }) : Board).id == boardId) = true := by
  intro x hx
  by_cases hcont : x.members.contains uid = true
  · rw [if_pos hcont]; exact hx
  · rw [if_neg hcont]; exact hx

/-- After the member-adding update, the invited id is always a member. -/
theorem inviteAdd_contains (uid : String) (x : Board) :
    (((if x.members.contains uid then x
       else { x with members := x.members ++ [uid] }) : Board).members.contains uid) = true := by
  by_cases hcont : x.members.contains uid = true
  · rw [if_pos hcont]; exact hcont
  · rw [if_neg hcont]
    exact contains_iff_mem.mpr (List.mem_append_right _ (by simp))

/-- C7: a successful `invite` appends exactly one Invite record whether or
not a user with the email exists; when one exists (first match by email),
their id is a member of the board afterwards and, when it occurred at most
once before, occurs exactly once after; re-inviting the same email into the
resulting store leaves the boards exactly as they were. -/
theorem invite_success_membership
    {boardId email inviterId : String} {now : Nat} {created : String} {s s2 : Store}
    (h : invite boardId email inviterId now created s = Except.ok s2) :
    s2.invites = s.invites ++
      [{ id := "invite-" ++ toString now, boardId := boardId, email := email,
         inviterId := inviterId, created := created }] ∧
    (∀ u, s.users.find? (fun v => v.email == email) = some u →
      ∀ b0, s.boards.find? (fun b => b.id == boardId) = some b0 →
        ∃ b2, s2.boards.find? (fun b => b.id == boardId) = some b2 ∧
          u.id ∈ b2.members ∧
          (b0.members.count u.id ≤ 1 → b2.members.count u.id = 1)) ∧
    (∀ now2 created2 s3,
      invite boardId email inviterId now2 created2 s2 = Except.ok s3 →
      s3.boards = s2.boards) := by
  obtain ⟨husers, htasks, hinvs, hcases⟩ := invite_ok h
  refine ⟨hinvs, ?_, ?_⟩
  · intro u hu b0 hb0
    rcases hcases with ⟨hnone, hbs⟩ | ⟨u2, hu2, hbs⟩
    · rw [hu] at hnone
      exact absurd hnone (by simp)
    · rw [hu] at hu2
      injection hu2 with hu2
      subst hu2
      have hfind2 := find?_replaceFirst s.boards (inviteAdd_preserves_id boardId u.id)
      rw [hb0] at hfind2
      rw [← hbs] at hfind2
      simp only [Option.map_some'] at hfind2
      refine ⟨_, hfind2, ?_, ?_⟩
      · exact contains_iff_mem.mp (inviteAdd_contains u.id b0)
      · intro hle
        by_cases hcont : b0.members.contains u.id = true
        · rw [if_pos hcont]
          have hpos : 0 < b0.members.count u.id :=
            List.count_pos_iff.mpr (contains_iff_mem.mp hcont)
          omega
        · rw [if_neg hcont]
          have h0 : b0.members.count u.id = 0 :=
            List.count_eq_zero.mpr (contains_eq_false_iff.mp (by simpa using hcont))
          simp [List.count_append, h0]
  · intro now2 created2 s3 h2
    obtain ⟨-, -, -, hcases2⟩ := invite_ok h2
    rcases hcases2 with ⟨-, hbs3⟩ | ⟨u2, hu2, hbs3⟩
    · exact hbs3
    · rw [husers] at hu2
      rcases hcases with ⟨hnone, hbs⟩ | ⟨u1, hu1, hbs⟩
      · rw [hnone] at hu2
        exact absurd hu2 (by simp)
      · rw [hu1] at hu2
        injection hu2 with hu2
        subst hu2
        rw [hbs3]
        apply replaceFirst_eq_self
        intro x hx
        by_cases hsb : s.boards.find? (fun b => b.id == boardId) = none
        · have hnone2 : s2.boards.find? (fun b => b.id == boardId) = none := by
            rw [hbs, replaceFirst_of_forall_not _
              (fun y hy => List.find?_eq_none.mp hsb y hy)]
            exact hsb
          rw [hnone2] at hx
          exact absurd hx (by simp)
        · obtain ⟨b0, hb0⟩ := Option.ne_none_iff_exists'.mp hsb
          have hfind2 := find?_replaceFirst s.boards (inviteAdd_preserves_id boardId u1.id)
          rw [hb0] at hfind2
          rw [← hbs] at hfind2
          simp only [Option.map_some'] at hfind2
          rw [hfind2] at hx
          injection hx with hx
          rw [← hx]
          rw [if_pos (inviteAdd_contains u1.id b0)]

def invW : Invite :=
  { id := "invite-7", boardId := "board-1", email := "bob@x.com",
    inviterId := "user-1", created := "tc" }

def bWs2 : Board :=
  { id := "board-1", name := "Sprint", color := "#4A90E2", ownerId := "user-1",
    members := ["user-1", "user-2"] }

def csW2 : Store := { users := [uWa, uWb], boards := [bWs2], tasks := [tWf], invites := [invW] }

/-- C7 witness: a concrete successful invite of bob by the owner. -/
theorem invite_success_membership_witness :
    csW2.invites = csW.invites ++
      [{ id := "invite-7", boardId := "board-1", email := "bob@x.com",
         inviterId := "user-1", created := "tc" }] :=
  (invite_success_membership
    (by decide : invite "board-1" "bob@x.com" "user-1" 7 "tc" csW = Except.ok csW2)).1

/-- A bcrypt verifier that rejects every password, for concrete login runs. -/
def verifyNone : String → String → Bool := fun _ _ => false

/-- C8 counterexample: the claim quantifies over every store and password
and any email matching no user; the empty email matches no user of the
concrete store, yet produces the validation 400, while a matching email
with a non-verifying password produces 401 — different status, different
message, so the two errors are not identical as claimed. -/
theorem login_same_error_cex :
    csW.users.find? (fun u => u.email == "") = none ∧
    csW.users.find? (fun v => v.email == "bob@x.com") = some uWb ∧
    verifyNone "pw" uWb.passwordHash = false ∧
    login verifyNone "" "pw" csW =
      Except.error ⟨400, "Email and password are required."⟩ ∧
    login verifyNone "bob@x.com" "pw" csW =
      Except.error ⟨401, "Invalid credentials."⟩ ∧
    login verifyNone "" "pw" csW ≠ login verifyNone "bob@x.com" "pw" csW := by
  decide

/-- C8 (amended): for every store and *non-empty* password, a login with a
non-empty email matching no user and a login with a (non-empty) matching
email whose stored hash the password fails to verify against return
identical errors: both status 401 with the character-for-character same
message "Invalid credentials.", so the two failure causes are
indistinguishable; with an empty email or password both logins instead fail
with the same validation 400. -/
theorem login_same_error
    (verify : String → String → Bool) (s : Store) (e1 e2 password : String)
    (hp : password ≠ "") (he1 : e1 ≠ "") (he2 : e2 ≠ "")
    (h1 : s.users.find? (fun u => u.email == e1) = none)
    (u : User) (h2 : s.users.find? (fun v => v.email == e2) = some u)
    (hv : verify password u.passwordHash = false) :
    login verify e1 password s = Except.error ⟨401, "Invalid credentials."⟩ ∧
    login verify e2 password s = Except.error ⟨401, "Invalid credentials."⟩ ∧
    login verify e1 password s = login verify e2 password s := by
  have hval1 : (e1 == "" || password == "") = false := by simp [he1, hp]
  have hval2 : (e2 == "" || password == "") = false := by simp [he2, hp]
  have l1 : login verify e1 password s = Except.error ⟨401, "Invalid credentials."⟩ := by
    simp [login, hval1, h1]
  have l2 : login verify e2 password s = Except.error ⟨401, "Invalid credentials."⟩ := by
    simp [login, hval2, h2, hv]
  exact ⟨l1, l2, by rw [l1, l2]⟩

/-- C8 witness at a concrete store and verifier. -/
theorem login_same_error_witness :
    login verifyNone "nobody@x.com" "pw" csW =
      Except.error ⟨401, "Invalid credentials."⟩ ∧
    login verifyNone "bob@x.com" "pw" csW =
      Except.error ⟨401, "Invalid credentials."⟩ ∧
    login verifyNone "nobody@x.com" "pw" csW = login verifyNone "bob@x.com" "pw" csW :=
  login_same_error verifyNone csW "nobody@x.com" "bob@x.com" "pw"
    (by decide) (by decide) (by decide) (by rfl) uWb (by rfl) (by rfl)

theorem getElem?_replaceFirst_of_not {p : α → Bool} {f : α → α} :
    ∀ (l : List α) (i : Nat), (∀ x, l[i]? = some x → ¬ p x = true) →
      (replaceFirst p f l)[i]? = l[i]?
  | [], i, _ => by simp [replaceFirst]
  | x :: xs, i, hnp => by
    rw [replaceFirst]
    by_cases hx : p x = true
    · rw [if_pos hx]
      cases i with
      | zero => exact absurd hx (hnp x (by simp))
      | succ j => simp
    · rw [if_neg hx]
      cases i with
      | zero => simp
      | succ j =>
        simp only [List.getElem?_cons_succ]
        exact getElem?_replaceFirst_of_not xs j (fun y hy => hnp y (by simpa using hy))

theorem getElem?_replaceFirst_map {β : Type} (g : α → β) {p : α → Bool} {f : α → α}
    (hg : ∀ x, g (f x) = g x) :
    ∀ (l : List α) (i : Nat),
      ((replaceFirst p f l)[i]?).map g = (l[i]?).map g
  | [], i => by simp [replaceFirst]
  | x :: xs, i => by
    rw [replaceFirst]
    by_cases hx : p x = true
    · rw [if_pos hx]
      cases i with
      | zero => simp [hg]
      | succ j => simp
    · rw [if_neg hx]
      cases i with
      | zero => simp
      | succ j =>
        simp only [List.getElem?_cons_succ]
        exact getElem?_replaceFirst_map g hg xs j

/-- The merge never changes a task's id. -/
theorem applyUpdates_id (t : Task) (u : List (String × FieldVal)) :
    (applyUpdates t u).id = t.id := by
  rw [applyUpdates_spec]

/-- C10: a successful `updateTask` leaves users, boards and invites
unchanged, keeps the task list's length, leaves every positional entry
whose id is not the targeted one unchanged, preserves every entry's id
positionally, and returns the merge of the first matching task, whose id is
unchanged. -/
theorem updateTask_frame {taskId : String} {updates : List (String × FieldVal)}
    {s : Store} {t2 : Task} {s2 : Store}
    (h : updateTask taskId updates s = Except.ok (t2, s2)) :
    s2.users = s.users ∧ s2.boards = s.boards ∧ s2.invites = s.invites ∧
    s2.tasks.length = s.tasks.length ∧
    (∀ (i : Nat) (t : Task), s.tasks[i]? = some t → t.id ≠ taskId →
      s2.tasks[i]? = some t) ∧
    (∀ i : Nat, (s2.tasks[i]?).map Task.id = (s.tasks[i]?).map Task.id) ∧
    (∃ t0, s.tasks.find? (fun t => t.id == taskId) = some t0 ∧
      t2 = applyUpdates t0 updates ∧ t2.id = t0.id) := by
  obtain ⟨hu, hb, hi, htasks, t0, hfind, ht2⟩ := updateTask_ok h
  refine ⟨hu, hb, hi, ?_, ?_, ?_, t0, hfind, ht2, ?_⟩
  · rw [htasks]
    exact length_replaceFirst _ _ _
  · intro i t hti hne
    rw [htasks]
    rw [getElem?_replaceFirst_of_not s.tasks i (fun x hx => by
      rw [hti] at hx
      injection hx with hx
      subst hx
      simp [hne])]
    exact hti
  · intro i
    rw [htasks]
    exact getElem?_replaceFirst_map Task.id (fun x => applyUpdates_id x updates) s.tasks i
  · rw [ht2]
    exact applyUpdates_id t0 updates

def tWn : Task :=
  { id := "task-1", title := .str "New", description := .str "", dueDate := .str "",
    boardId := .str "board-1", userId := .str "", items := .items [] }

def csW3 : Store := { users := [uWa, uWb], boards := [bWs], tasks := [tWn], invites := [] }

/-- C10 witness at a concrete update. -/
theorem updateTask_frame_witness :
    csW3.users = csW.users ∧ csW3.boards = csW.boards ∧ csW3.invites = csW.invites ∧
    csW3.tasks.length = csW.tasks.length := by
  have hW : updateTask "task-1" [("title", FieldVal.str "New")] csW =
      Except.ok (tWn, csW3) := by decide
  exact ⟨(updateTask_frame hW).1, (updateTask_frame hW).2.1,
    (updateTask_frame hW).2.2.1, (updateTask_frame hW).2.2.2.1⟩

end AlmoTasks
